import Mathlib

/-!
Shallow embedding of the rate-limiting core of this repository
(`checkRateLimit`, `rateLimitCombined`, `cleanupMemoryStore` and the
distributed-store interaction), together with proofs of the spec's
testable properties.

Timestamps, counters and limits are JavaScript numbers used only at
integer values here, so they are embedded as `Int`.  The process-local
`memoryStore` (a JS `Map`) is embedded as an association list with
JS-`Map` update semantics: `set` replaces an existing binding in place
and appends a fresh binding at the end.
-/

/-- Result record returned by one rate-limit evaluation
(`RateLimitResult` in the source). -/
structure RateLimitResult where
  success : Bool
  limit : Int
  remaining : Int
  reset : Int
deriving DecidableEq, Repr

/-- One entry of the in-memory store: `{ count, resetAt }` in the source. -/
structure MemRecord where
  count : Int
  resetAt : Int
deriving DecidableEq, Repr

/-- Association-list lookup, mirroring `Map.get`. -/
def assocGet {α : Type} : List (String × α) → String → Option α
  | [], _ => none
  | (k', v') :: rest, k => if k' = k then some v' else assocGet rest k

/-- Association-list update, mirroring `Map.set`: replaces an existing
binding in place, appends at the end otherwise. -/
def assocSet {α : Type} : List (String × α) → String → α → List (String × α)
  | [], k, v => [(k, v)]
  | (k', v') :: rest, k, v =>
      if k' = k then (k, v) :: rest else (k', v') :: assocSet rest k v

/-- The process-local `memoryStore` of the source. -/
abbrev MemoryStore := List (String × MemRecord)

/-- Key derivation: `const key = ratelimit:identifier`. -/
def rateLimitKey (identifier : String) : String := "ratelimit:" ++ identifier

/-- The in-memory fallback path of `checkRateLimit` (the code after the
Redis block): looks up the record for the key; if absent or expired it
starts a new window with count 1, otherwise it increments the stored
count in place.  Returns the decision and the updated store. -/
def checkRateLimitMemory (store : MemoryStore) (identifier : String)
    (limit windowSeconds now : Int) : RateLimitResult × MemoryStore :=
  let key := rateLimitKey identifier
  let resetTime := now + windowSeconds * 1000
  match assocGet store key with
  | none =>
      ({ success := true, limit := limit, remaining := limit - 1, reset := resetTime },
       assocSet store key ⟨1, resetTime⟩)
  | some record =>
      if now > record.resetAt then
        ({ success := true, limit := limit, remaining := limit - 1, reset := resetTime },
         assocSet store key ⟨1, resetTime⟩)
      else
        let newCount := record.count + 1
        ({ success := decide (newCount ≤ limit), limit := limit,
           remaining := max 0 (limit - newCount), reset := record.resetAt },
         assocSet store key ⟨newCount, record.resetAt⟩)

/-- A sequence of calls to the in-memory path of `checkRateLimit` on one
identifier, at the given call times, returning all decisions and the
final store. -/
def runMemCalls (identifier : String) (limit windowSeconds : Int) :
    List Int → MemoryStore → List RateLimitResult × MemoryStore
  | [], store => ([], store)
  | t :: ts, store =>
      let p := checkRateLimitMemory store identifier limit windowSeconds t
      let q := runMemCalls identifier limit windowSeconds ts p.2
      (p.1 :: q.1, q.2)

/-- One entry of the distributed store: a counter with an optional
absolute expiry time, in whole seconds. -/
structure RedisEntry where
  count : Int
  expireAt : Option Int
deriving DecidableEq, Repr

/-- The distributed key-value store. -/
abbrev RedisStore := List (String × RedisEntry)

/-- Modelled from the spec: the distributed store's atomic
increment-and-get (`redis.incr`), which creates the counter at 1 if the
key is absent (or its expiry has passed) and increments it otherwise.
The store's clock is in whole seconds, its expiry granularity. -/
def redisIncr (store : RedisStore) (key : String) (nowSec : Int) : Int × RedisStore :=
  match assocGet store key with
  | none => (1, assocSet store key ⟨1, none⟩)
  | some e =>
      match e.expireAt with
      | some ex =>
          if ex ≤ nowSec then (1, assocSet store key ⟨1, none⟩)
          else (e.count + 1, assocSet store key ⟨e.count + 1, some ex⟩)
      | none => (e.count + 1, assocSet store key ⟨e.count + 1, none⟩)

/-- Modelled from the spec: set-expiry (`redis.expire key windowSeconds`),
making the key expire `seconds` seconds from now. -/
def redisExpire (store : RedisStore) (key : String) (seconds nowSec : Int) : RedisStore :=
  match assocGet store key with
  | none => store
  | some e => assocSet store key ⟨e.count, some (nowSec + seconds)⟩

/-- Modelled from the spec: remaining time-to-live inspection
(`redis.ttl`) in seconds; -1 when the key has no expiry, -2 when the key
is absent, per the store's TTL contract. -/
def redisTtl (store : RedisStore) (key : String) (nowSec : Int) : Int :=
  match assocGet store key with
  | none => -2
  | some e =>
      match e.expireAt with
      | none => -1
      | some ex => ex - nowSec

/-- Failure injection for one distributed-backend evaluation: which of
the three network steps (increment, expire, ttl) raises. -/
structure RedisCall where
  incrFails : Bool
  expireFails : Bool
  ttlFails : Bool
deriving DecidableEq, Repr

/-- A call on which every network step succeeds. -/
def redisOk : RedisCall := ⟨false, false, false⟩

/-- The distributed-backend attempt inside `checkRateLimit`'s `try`
block: increment the counter, set expiry when this call created the key
(`count === 1`), read the TTL back, and compute the decision.  Returns
`none` when the injected behavior makes a step raise (the `catch` then
falls through to the memory store); store effects of steps already
performed persist. -/
def redisAttempt (f : RedisCall) (store : RedisStore) (key : String)
    (limit windowSeconds nowSec : Int) : Option RateLimitResult × RedisStore :=
  let now := nowSec * 1000
  let resetTime := now + windowSeconds * 1000
  if f.incrFails then (none, store)
  else
    let p := redisIncr store key nowSec
    if p.1 = 1 ∧ f.expireFails = true then (none, p.2)
    else
      let s1 := if p.1 = 1 then redisExpire p.2 key windowSeconds nowSec else p.2
      if f.ttlFails then (none, s1)
      else
        let ttl := redisTtl s1 key nowSec
        (some { success := decide (p.1 ≤ limit), limit := limit,
                remaining := max 0 (limit - p.1),
                reset := if ttl > 0 then now + ttl * 1000 else resetTime }, s1)

/-- Full `checkRateLimit`: when the distributed backend is configured,
attempt the increment/expire/ttl sequence and fall back to the in-memory
store if any step raised; otherwise evaluate on the in-memory store
directly.  The evaluation time is `nowSec * 1000` milliseconds. -/
def checkRateLimit (redisConfigured : Bool) (f : RedisCall) (rstore : RedisStore)
    (mstore : MemoryStore) (identifier : String) (limit windowSeconds nowSec : Int) :
    RateLimitResult × RedisStore × MemoryStore :=
  let now := nowSec * 1000
  if redisConfigured then
    match redisAttempt f rstore (rateLimitKey identifier) limit windowSeconds nowSec with
    | (some res, rstore1) => (res, rstore1, mstore)
    | (none, rstore1) =>
        let p := checkRateLimitMemory mstore identifier limit windowSeconds now
        (p.1, rstore1, p.2)
  else
    let p := checkRateLimitMemory mstore identifier limit windowSeconds now
    (p.1, rstore, p.2)

/-- A sequence of distributed-backend evaluations on one identifier with
no injected failures, at the given call times (whole seconds). -/
def runRedisCalls (identifier : String) (limit windowSeconds : Int) :
    List Int → RedisStore → List (Option RateLimitResult) × RedisStore
  | [], store => ([], store)
  | t :: ts, store =>
      let p := redisAttempt redisOk store (rateLimitKey identifier) limit windowSeconds t
      let q := runRedisCalls identifier limit windowSeconds ts p.2
      (p.1 :: q.1, q.2)

/-- The reduction at the end of `rateLimitCombined`: if the IP result
failed return it, else if the email result failed return it, else
synthesize the most restrictive result. -/
def combineResults (ipResult emailResult : RateLimitResult) : RateLimitResult :=
  if ipResult.success = false then ipResult
  else if emailResult.success = false then emailResult
  else
    { success := true,
      limit := min ipResult.limit emailResult.limit,
      remaining := min ipResult.remaining emailResult.remaining,
      reset := max ipResult.reset emailResult.reset }

/-- `rateLimitCombined` on the in-memory backend: evaluate the IP
dimension and the email dimension (the two promises run back-to-back on
the synchronous in-memory path, in listed order: IP first), then reduce
to the most restrictive result. -/
def rateLimitCombined (store : MemoryStore) (ip email : String)
    (ipLimit emailLimit windowSeconds now : Int) : RateLimitResult × MemoryStore :=
  let p := checkRateLimitMemory store ("ip:" ++ ip) ipLimit windowSeconds now
  let q := checkRateLimitMemory p.2 ("email:" ++ email) emailLimit windowSeconds now
  (combineResults p.1 q.1, q.2)

/-- `cleanupMemoryStore`: delete from the in-memory store every entry
whose `resetAt` is in the past. -/
def cleanupMemoryStore (store : MemoryStore) (now : Int) : MemoryStore :=
  store.filter (fun kv => decide (¬ now > kv.2.resetAt))

theorem assocGet_assocSet_self {α : Type} (s : List (String × α)) (k : String) (v : α) :
    assocGet (assocSet s k v) k = some v := by
  induction s with
  | nil => simp [assocGet, assocSet]
  | cons hd tl ih =>
      obtain ⟨k', v'⟩ := hd
      by_cases h : k' = k
      · simp [assocGet, assocSet, h]
      · simp [assocGet, assocSet, h, ih]

theorem assocGet_assocSet_ne {α : Type} (s : List (String × α)) (k k' : String) (v : α)
    (h : k ≠ k') : assocGet (assocSet s k v) k' = assocGet s k' := by
  induction s with
  | nil => simp [assocGet, assocSet, h]
  | cons hd tl ih =>
      obtain ⟨k₀, v₀⟩ := hd
      by_cases h₀ : k₀ = k
      · subst h₀
        simp [assocGet, assocSet, h]
      · simp only [assocSet, if_neg h₀, assocGet]
        by_cases h₁ : k₀ = k'
        · simp [h₁]
        · simp [h₁, ih]

/-- Characterization of the fresh-key branch of the in-memory path:
`if (!record)` creates a new window with count 1. -/
theorem checkRateLimitMemory_fresh (store : MemoryStore) (identifier : String)
    (limit windowSeconds now : Int)
    (h : assocGet store (rateLimitKey identifier) = none) :
    checkRateLimitMemory store identifier limit windowSeconds now =
      ({ success := true, limit := limit, remaining := limit - 1,
         reset := now + windowSeconds * 1000 },
       assocSet store (rateLimitKey identifier) ⟨1, now + windowSeconds * 1000⟩) := by
  simp [checkRateLimitMemory, h]

/-- Characterization of the expired-record branch of the in-memory path:
`now > record.resetAt` starts a new window with count 1. -/
theorem checkRateLimitMemory_expired (store : MemoryStore) (identifier : String)
    (limit windowSeconds now : Int) (rec : MemRecord)
    (h : assocGet store (rateLimitKey identifier) = some rec)
    (hexp : now > rec.resetAt) :
    checkRateLimitMemory store identifier limit windowSeconds now =
      ({ success := true, limit := limit, remaining := limit - 1,
         reset := now + windowSeconds * 1000 },
       assocSet store (rateLimitKey identifier) ⟨1, now + windowSeconds * 1000⟩) := by
  simp [checkRateLimitMemory, h, hexp]

/-- Characterization of the in-window branch of the in-memory path:
the stored count is incremented, the stored `resetAt` is returned
unchanged. -/
theorem checkRateLimitMemory_inWindow (store : MemoryStore) (identifier : String)
    (limit windowSeconds now : Int) (rec : MemRecord)
    (h : assocGet store (rateLimitKey identifier) = some rec)
    (hin : now ≤ rec.resetAt) :
    checkRateLimitMemory store identifier limit windowSeconds now =
      ({ success := decide (rec.count + 1 ≤ limit), limit := limit,
         remaining := max 0 (limit - (rec.count + 1)), reset := rec.resetAt },
       assocSet store (rateLimitKey identifier) ⟨rec.count + 1, rec.resetAt⟩) := by
  have hexp : ¬ now > rec.resetAt := not_lt.mpr hin
  simp [checkRateLimitMemory, h, hexp]

theorem runMemCalls_length (identifier : String) (limit windowSeconds : Int)
    (ts : List Int) (store : MemoryStore) :
    ((runMemCalls identifier limit windowSeconds ts store).1).length = ts.length := by
  induction ts generalizing store with
  | nil => simp [runMemCalls]
  | cons t ts ih => simp [runMemCalls, ih]

theorem get_of_eq_mapRange {α : Type} {n : Nat} {f : Nat → α}
    {l : List α} (h : l = (List.range n).map f)
    (j : Nat) (hj : j < l.length) : l.get ⟨j, hj⟩ = f j := by
  subst h
  simp

/-- Invariant for a run that starts on an unexpired record `⟨c, r⟩` and whose
call times all fall within the window: the i-th call observes count
`c + i + 1`, returns the stored `resetAt` unchanged, and the final stored
count is `c +` the number of calls. -/
theorem runMemCalls_inWindow (identifier : String) (limit windowSeconds : Int) :
    ∀ (ts : List Int) (store : MemoryStore) (c r : Int),
      assocGet store (rateLimitKey identifier) = some ⟨c, r⟩ →
      (∀ t ∈ ts, t ≤ r) →
      (runMemCalls identifier limit windowSeconds ts store).1 =
        (List.range ts.length).map (fun j =>
          { success := decide (c + (j : Int) + 1 ≤ limit), limit := limit,
            remaining := max 0 (limit - (c + (j : Int) + 1)), reset := r }) ∧
      assocGet ((runMemCalls identifier limit windowSeconds ts store).2)
          (rateLimitKey identifier) = some ⟨c + (ts.length : Int), r⟩ := by
  intro ts
  induction ts with
  | nil =>
      intro store c r hget hts
      refine ⟨by simp [runMemCalls], ?_⟩
      simpa [runMemCalls] using hget
  | cons t ts ih =>
      intro store c r hget hts
      have ht : t ≤ r := hts t (by simp)
      have hstep := checkRateLimitMemory_inWindow store identifier limit windowSeconds t
        ⟨c, r⟩ hget ht
      have hget' : assocGet (assocSet store (rateLimitKey identifier) ⟨c + 1, r⟩)
          (rateLimitKey identifier) = some ⟨c + 1, r⟩ :=
        assocGet_assocSet_self _ _ _
      have hts' : ∀ t' ∈ ts, t' ≤ r := fun t' h' => hts t' (by simp [h'])
      obtain ⟨ih1, ih2⟩ :=
        ih (assocSet store (rateLimitKey identifier) ⟨c + 1, r⟩) (c + 1) r hget' hts'
      constructor
      · simp only [runMemCalls, hstep, List.length_cons]
        rw [List.range_succ_eq_map, List.map_cons, List.map_map, ih1]
        refine List.cons_eq_cons.mpr ⟨by norm_num, ?_⟩
        apply List.map_congr_left
        intro j hj
        have hcast : ((j + 1 : Nat) : Int) = (j : Int) + 1 := by push_cast; ring
        simp only [Function.comp_apply, hcast]
        have harith : c + 1 + (j : Int) + 1 = c + ((j : Int) + 1) + 1 := by ring
        rw [harith]
      · simp only [runMemCalls, hstep, List.length_cons]
        rw [ih2]
        have : c + 1 + (ts.length : Int) = c + ((ts.length + 1 : Nat) : Int) := by
          push_cast; ring
        rw [this]

theorem runRedisCalls_length (identifier : String) (limit windowSeconds : Int)
    (ts : List Int) (store : RedisStore) :
    ((runRedisCalls identifier limit windowSeconds ts store).1).length = ts.length := by
  induction ts generalizing store with
  | nil => simp [runRedisCalls]
  | cons t ts ih => simp [runRedisCalls, ih]

/-- A failure-free distributed evaluation on a fresh key creates the
counter at 1, sets the expiry, and reads the exact reset back. -/
theorem redisAttempt_fresh (store : RedisStore) (key : String)
    (limit windowSeconds nowSec : Int)
    (hget : assocGet store key = none) (hW : 1 ≤ windowSeconds) :
    redisAttempt redisOk store key limit windowSeconds nowSec =
      (some { success := decide (1 ≤ limit), limit := limit,
              remaining := max 0 (limit - 1), reset := (nowSec + windowSeconds) * 1000 },
       assocSet (assocSet store key ⟨1, none⟩) key ⟨1, some (nowSec + windowSeconds)⟩) := by
  have h1 : assocGet (assocSet store key (⟨1, none⟩ : RedisEntry)) key =
      some ⟨1, none⟩ := assocGet_assocSet_self _ _ _
  have h2 : assocGet (assocSet (assocSet store key (⟨1, none⟩ : RedisEntry)) key
      (⟨1, some (nowSec + windowSeconds)⟩ : RedisEntry)) key =
      some ⟨1, some (nowSec + windowSeconds)⟩ := assocGet_assocSet_self _ _ _
  have httlv : redisTtl (assocSet (assocSet store key ⟨1, none⟩) key
      ⟨1, some (nowSec + windowSeconds)⟩) key nowSec = windowSeconds := by
    simp [redisTtl, h2]
  have hIncr : redisIncr store key nowSec = (1, assocSet store key ⟨1, none⟩) := by
    simp [redisIncr, hget]
  have hExp : redisExpire (assocSet store key ⟨1, none⟩) key windowSeconds nowSec =
      assocSet (assocSet store key ⟨1, none⟩) key ⟨1, some (nowSec + windowSeconds)⟩ := by
    simp [redisExpire, h1]
  have hWpos : (0 : Int) < windowSeconds := by omega
  simp [redisAttempt, redisOk, hIncr, hExp, httlv, hWpos]
  ring

/-- A failure-free distributed evaluation on a live key (positive count,
unexpired) increments the counter, skips the expire step, and reads the
unchanged expiry back. -/
theorem redisAttempt_inWindow (store : RedisStore) (key : String)
    (limit windowSeconds nowSec : Int) (c ex : Int)
    (hget : assocGet store key = some ⟨c, some ex⟩) (hc : 1 ≤ c)
    (ht : nowSec < ex) :
    redisAttempt redisOk store key limit windowSeconds nowSec =
      (some { success := decide (c + 1 ≤ limit), limit := limit,
              remaining := max 0 (limit - (c + 1)), reset := ex * 1000 },
       assocSet store key ⟨c + 1, some ex⟩) := by
  have hlive : ¬ ex ≤ nowSec := not_le.mpr ht
  have h1 : assocGet (assocSet store key (⟨c + 1, some ex⟩ : RedisEntry)) key =
      some ⟨c + 1, some ex⟩ := assocGet_assocSet_self _ _ _
  have hc1 : ¬ (c + 1 = 1) := by omega
  have httlv : redisTtl (assocSet store key ⟨c + 1, some ex⟩) key nowSec =
      ex - nowSec := by
    simp [redisTtl, h1]
  have hIncr : redisIncr store key nowSec =
      (c + 1, assocSet store key ⟨c + 1, some ex⟩) := by
    simp [redisIncr, hget, hlive]
  have hpos : (0 : Int) < ex - nowSec := by omega
  simp [redisAttempt, redisOk, hIncr, hc1, httlv, hpos]
  ring

/-- The increment step always stores back exactly the count it returns,
whatever the prior state of the key (absent, live, or expired). -/
theorem redisIncr_stored (store : RedisStore) (key : String) (nowSec : Int) :
    ∃ t, assocGet ((redisIncr store key nowSec).2) key =
      some ⟨(redisIncr store key nowSec).1, t⟩ := by
  rcases h : assocGet store key with _ | e
  · have heq : redisIncr store key nowSec = (1, assocSet store key ⟨1, none⟩) := by
      simp [redisIncr, h]
    rw [heq]
    exact ⟨none, assocGet_assocSet_self _ _ _⟩
  · rcases hx : e.expireAt with _ | ex
    · have heq : redisIncr store key nowSec =
          (e.count + 1, assocSet store key ⟨e.count + 1, none⟩) := by
        simp [redisIncr, h, hx]
      rw [heq]
      exact ⟨none, assocGet_assocSet_self _ _ _⟩
    · by_cases hle : ex ≤ nowSec
      · have heq : redisIncr store key nowSec = (1, assocSet store key ⟨1, none⟩) := by
          simp [redisIncr, h, hx, hle]
        rw [heq]
        exact ⟨none, assocGet_assocSet_self _ _ _⟩
      · have heq : redisIncr store key nowSec =
            (e.count + 1, assocSet store key ⟨e.count + 1, some ex⟩) := by
          simp [redisIncr, h, hx, hle]
        rw [heq]
        exact ⟨some ex, assocGet_assocSet_self _ _ _⟩

/-- The expire step keeps the stored count and installs the expiry. -/
theorem redisExpire_count (store : RedisStore) (key : String)
    (seconds nowSec c : Int) (t : Option Int)
    (h : assocGet store key = some ⟨c, t⟩) :
    assocGet (redisExpire store key seconds nowSec) key =
      some ⟨c, some (nowSec + seconds)⟩ := by
  simp [redisExpire, h, assocGet_assocSet_self]

/-- A failure-free distributed evaluation, from any store state, returns
a decision whose `remaining` is the clamp `max 0 (limit - count)` of the
count produced by the increment step. -/
theorem redisAttempt_ok_remaining (store : RedisStore) (key : String)
    (limit windowSeconds nowSec : Int) :
    ((redisAttempt redisOk store key limit windowSeconds nowSec).1).map
        RateLimitResult.remaining =
      some (max 0 (limit - (redisIncr store key nowSec).1)) := by
  simp [redisAttempt, redisOk]

/-- After a failure-free distributed evaluation, from any store state,
the stored count equals the count the increment step produced. -/
theorem redisAttempt_ok_storedCount (store : RedisStore) (key : String)
    (limit windowSeconds nowSec : Int) :
    ∃ e, assocGet ((redisAttempt redisOk store key limit windowSeconds nowSec).2) key =
        some e ∧ e.count = (redisIncr store key nowSec).1 := by
  obtain ⟨t, hstored⟩ := redisIncr_stored store key nowSec
  by_cases hc : (redisIncr store key nowSec).1 = 1
  · have hexp := redisExpire_count ((redisIncr store key nowSec).2) key
      windowSeconds nowSec ((redisIncr store key nowSec).1) t hstored
    refine ⟨⟨(redisIncr store key nowSec).1, some (nowSec + windowSeconds)⟩, ?_, rfl⟩
    simpa [redisAttempt, redisOk, hc] using hexp
  · refine ⟨⟨(redisIncr store key nowSec).1, t⟩, ?_, rfl⟩
    simpa [redisAttempt, redisOk, hc] using hstored

/-- Invariant for a failure-free distributed run starting on a live
record `⟨c, ex⟩` whose call times all precede the expiry: the i-th call
observes count `c + i + 1` and returns the fixed reset `ex * 1000`. -/
theorem runRedisCalls_inWindow (identifier : String) (limit windowSeconds : Int) :
    ∀ (ts : List Int) (store : RedisStore) (c ex : Int),
      assocGet store (rateLimitKey identifier) = some ⟨c, some ex⟩ →
      1 ≤ c →
      (∀ t ∈ ts, t < ex) →
      (runRedisCalls identifier limit windowSeconds ts store).1 =
        (List.range ts.length).map (fun j => some
          { success := decide (c + (j : Int) + 1 ≤ limit), limit := limit,
            remaining := max 0 (limit - (c + (j : Int) + 1)), reset := ex * 1000 }) ∧
      assocGet ((runRedisCalls identifier limit windowSeconds ts store).2)
          (rateLimitKey identifier) = some ⟨c + (ts.length : Int), some ex⟩ := by
  intro ts
  induction ts with
  | nil =>
      intro store c ex hget hc hts
      refine ⟨by simp [runRedisCalls], ?_⟩
      simpa [runRedisCalls] using hget
  | cons t ts ih =>
      intro store c ex hget hc hts
      have ht : t < ex := hts t (by simp)
      have hstep := redisAttempt_inWindow store (rateLimitKey identifier)
        limit windowSeconds t c ex hget hc ht
      have hget' : assocGet (assocSet store (rateLimitKey identifier) ⟨c + 1, some ex⟩)
          (rateLimitKey identifier) = some ⟨c + 1, some ex⟩ :=
        assocGet_assocSet_self _ _ _
      have hts' : ∀ t' ∈ ts, t' < ex := fun t' h' => hts t' (by simp [h'])
      obtain ⟨ih1, ih2⟩ :=
        ih (assocSet store (rateLimitKey identifier) ⟨c + 1, some ex⟩) (c + 1) ex
          hget' (by omega) hts'
      constructor
      · simp only [runRedisCalls, hstep, List.length_cons]
        rw [List.range_succ_eq_map, List.map_cons, List.map_map, ih1]
        refine List.cons_eq_cons.mpr ⟨by norm_num, ?_⟩
        apply List.map_congr_left
        intro j hj
        have hcast : ((j + 1 : Nat) : Int) = (j : Int) + 1 := by push_cast; ring
        simp only [Function.comp_apply, hcast]
        have harith : c + 1 + (j : Int) + 1 = c + ((j : Int) + 1) + 1 := by ring
        rw [harith]
      · simp only [runRedisCalls, hstep, List.length_cons]
        rw [ih2]
        have : c + 1 + (ts.length : Int) = c + ((ts.length + 1 : Nat) : Int) := by
          push_cast; ring
        rw [this]

/-- The IP-dimension key and the email-dimension key of a combined
evaluation never collide. -/
theorem ipKey_ne_emailKey (ip email : String) :
    rateLimitKey ("ip:" ++ ip) ≠ rateLimitKey ("email:" ++ email) := by
  intro h
  have h' := congrArg String.data h
  simp [rateLimitKey, String.data_append] at h'

/-- A fresh-key local run whose later calls stay within the window:
the j-th decision (0-based) observes count j+1. -/
theorem runMemCalls_fresh_list (identifier : String) (limit windowSeconds : Int)
    (mstore : MemoryStore) (t0 : Int) (ts : List Int)
    (hfresh : assocGet mstore (rateLimitKey identifier) = none)
    (hts : ∀ t ∈ ts, t ≤ t0 + windowSeconds * 1000) (hL : 1 ≤ limit) :
    (runMemCalls identifier limit windowSeconds (t0 :: ts) mstore).1 =
      (List.range (ts.length + 1)).map (fun j =>
        { success := decide ((j : Int) + 1 ≤ limit), limit := limit,
          remaining := max 0 (limit - ((j : Int) + 1)),
          reset := t0 + windowSeconds * 1000 }) := by
  have hstep := checkRateLimitMemory_fresh mstore identifier limit windowSeconds t0 hfresh
  have hget1 : assocGet (assocSet mstore (rateLimitKey identifier)
      ⟨1, t0 + windowSeconds * 1000⟩) (rateLimitKey identifier) =
      some ⟨1, t0 + windowSeconds * 1000⟩ := assocGet_assocSet_self _ _ _
  obtain ⟨h1, _⟩ := runMemCalls_inWindow identifier limit windowSeconds ts
    (assocSet mstore (rateLimitKey identifier) ⟨1, t0 + windowSeconds * 1000⟩)
    1 (t0 + windowSeconds * 1000) hget1 hts
  simp only [runMemCalls, hstep, List.length_cons]
  rw [List.range_succ_eq_map, List.map_cons, List.map_map, h1]
  refine List.cons_eq_cons.mpr ⟨?_, ?_⟩
  · have hd : decide (((0 : Nat) : Int) + 1 ≤ limit) = true := by
      simp only [Nat.cast_zero, zero_add]
      exact decide_eq_true hL
    have hm : max 0 (limit - (((0 : Nat) : Int) + 1)) = limit - 1 := by
      simp only [Nat.cast_zero, zero_add]
      omega
    rw [hd, hm]
  · apply List.map_congr_left
    intro j hj
    have hcast : ((j + 1 : Nat) : Int) = (j : Int) + 1 := by push_cast; ring
    simp only [Function.comp_apply, hcast]
    have harith : (1 : Int) + (j : Int) + 1 = ((j : Int) + 1) + 1 := by ring
    rw [harith]

/-- A fresh-key distributed run whose later calls stay within the
window: the j-th decision (0-based) observes count j+1. -/
theorem runRedisCalls_fresh_list (identifier : String) (limit windowSeconds : Int)
    (rstore : RedisStore) (u0 : Int) (us : List Int)
    (hfresh : assocGet rstore (rateLimitKey identifier) = none)
    (hus : ∀ u ∈ us, u < u0 + windowSeconds) (hW : 1 ≤ windowSeconds) :
    (runRedisCalls identifier limit windowSeconds (u0 :: us) rstore).1 =
      (List.range (us.length + 1)).map (fun j => some
        { success := decide ((j : Int) + 1 ≤ limit), limit := limit,
          remaining := max 0 (limit - ((j : Int) + 1)),
          reset := (u0 + windowSeconds) * 1000 }) := by
  have hstep := redisAttempt_fresh rstore (rateLimitKey identifier)
    limit windowSeconds u0 hfresh hW
  have hget1 : assocGet (assocSet (assocSet rstore (rateLimitKey identifier) ⟨1, none⟩)
      (rateLimitKey identifier) ⟨1, some (u0 + windowSeconds)⟩) (rateLimitKey identifier) =
      some ⟨1, some (u0 + windowSeconds)⟩ := assocGet_assocSet_self _ _ _
  obtain ⟨h1, _⟩ := runRedisCalls_inWindow identifier limit windowSeconds us
    (assocSet (assocSet rstore (rateLimitKey identifier) ⟨1, none⟩)
      (rateLimitKey identifier) ⟨1, some (u0 + windowSeconds)⟩)
    1 (u0 + windowSeconds) hget1 le_rfl hus
  simp only [runRedisCalls, hstep, List.length_cons]
  rw [List.range_succ_eq_map, List.map_cons, List.map_map, h1]
  refine List.cons_eq_cons.mpr ⟨?_, ?_⟩
  · norm_num
  · apply List.map_congr_left
    intro j hj
    have hcast : ((j + 1 : Nat) : Int) = (j : Int) + 1 := by push_cast; ring
    simp only [Function.comp_apply, hcast]
    have harith : (1 : Int) + (j : Int) + 1 = ((j : Int) + 1) + 1 := by ring
    rw [harith]

/-- C1: for a fresh key, limit L ≥ 1 and window W ≥ 1, with every call made
before the window expires, the j-th call (0-based) returns
`success = decide (j + 1 ≤ L)` — so each of the first L calls succeeds and
call L+1 fails — on the local backend and on the distributed backend; in
particular, four calls at limit 3 on the local backend return
`success = [true, true, true, false]` and `remaining = [2, 1, 0, 0]`. -/
theorem c1_first_limit_calls_allowed_then_denied
    (limit windowSeconds : Int) (hL : 1 ≤ limit) (hW : 1 ≤ windowSeconds)
    (identifier : String) (mstore : MemoryStore) (t0 : Int) (ts : List Int)
    (hfresh : assocGet mstore (rateLimitKey identifier) = none)
    (hts : ∀ t ∈ ts, t ≤ t0 + windowSeconds * 1000)
    (rstore : RedisStore) (u0 : Int) (us : List Int)
    (hrfresh : assocGet rstore (rateLimitKey identifier) = none)
    (hus : ∀ u ∈ us, u < u0 + windowSeconds) :
    (∀ j (hj : j < ((runMemCalls identifier limit windowSeconds (t0 :: ts) mstore).1).length),
        ((runMemCalls identifier limit windowSeconds (t0 :: ts) mstore).1).get ⟨j, hj⟩ =
          { success := decide ((j : Int) + 1 ≤ limit), limit := limit,
            remaining := max 0 (limit - ((j : Int) + 1)),
            reset := t0 + windowSeconds * 1000 }) ∧
    (∀ j (hj : j < ((runRedisCalls identifier limit windowSeconds (u0 :: us) rstore).1).length),
        ((runRedisCalls identifier limit windowSeconds (u0 :: us) rstore).1).get ⟨j, hj⟩ =
          some { success := decide ((j : Int) + 1 ≤ limit), limit := limit,
                 remaining := max 0 (limit - ((j : Int) + 1)),
                 reset := (u0 + windowSeconds) * 1000 }) ∧
    (runMemCalls "ip:1.2.3.4" 3 60 [0, 10000, 20000, 30000] []).1.map
        (fun d => (d.success, d.remaining)) =
      [(true, 2), (true, 1), (true, 0), (false, 0)] := by
  refine ⟨?_, ?_, by decide⟩
  · intro j hj
    exact get_of_eq_mapRange
      (runMemCalls_fresh_list identifier limit windowSeconds mstore t0 ts hfresh hts hL)
      j hj
  · intro j hj
    exact get_of_eq_mapRange
      (runRedisCalls_fresh_list identifier limit windowSeconds rstore u0 us hrfresh hus hW)
      j hj

theorem c1_witness :
    ((runMemCalls "k" 2 1 [0, 500, 700] []).1).get ⟨2, by decide⟩ =
      { success := decide (((2 : Nat) : Int) + 1 ≤ 2), limit := 2,
        remaining := max 0 (2 - (((2 : Nat) : Int) + 1)), reset := 0 + 1 * 1000 } :=
  (c1_first_limit_calls_allowed_then_denied 2 1 (by decide) (by decide) "k" [] 0
    [500, 700] (by decide) (by decide) [] 0 [0] (by decide) (by decide)).1 2 (by decide)

/-- C2 fails as stated: with limit 0 on a fresh key, the local backend's
new-window branch returns `remaining = limit - 1 = -1`, which is negative
and differs from `max 0 (limit - count) = max 0 (-1) = 0` for the
observed count 1. -/
theorem c2_counterexample :
    (checkRateLimitMemory [] "2.2.2.2" 0 60 0).1.remaining = -1 ∧
    assocGet ((checkRateLimitMemory [] "2.2.2.2" 0 60 0).2) (rateLimitKey "2.2.2.2") =
      some ⟨1, 60000⟩ ∧
    (checkRateLimitMemory [] "2.2.2.2" 0 60 0).1.remaining ≠ max 0 ((0 : Int) - 1) ∧
    (checkRateLimitMemory [] "2.2.2.2" 0 60 0).1.remaining < 0 := by
  decide

/-- C2 (amended): `remaining` equals `max 0 (limit - count)` for the
counter value observed by the call and is never negative: on the
distributed backend for every limit (zero and negative included) and
every store state, and on the local backend for every limit ≥ 1 in every
store state as well as for every limit whenever an unexpired record
exists; only the local new-window path with a non-positive limit
violates the clamp. -/
theorem c2_amended_remaining_clamped
    (store : MemoryStore) (identifier : String) (limit windowSeconds now : Int) :
    (1 ≤ limit →
      (∃ c rr, assocGet ((checkRateLimitMemory store identifier limit windowSeconds now).2)
          (rateLimitKey identifier) = some ⟨c, rr⟩ ∧
        (checkRateLimitMemory store identifier limit windowSeconds now).1.remaining =
          max 0 (limit - c)) ∧
      0 ≤ (checkRateLimitMemory store identifier limit windowSeconds now).1.remaining) ∧
    (∀ c r, assocGet store (rateLimitKey identifier) = some ⟨c, r⟩ → now ≤ r →
      (checkRateLimitMemory store identifier limit windowSeconds now).1.remaining =
        max 0 (limit - (c + 1)) ∧
      assocGet ((checkRateLimitMemory store identifier limit windowSeconds now).2)
        (rateLimitKey identifier) = some ⟨c + 1, r⟩ ∧
      0 ≤ (checkRateLimitMemory store identifier limit windowSeconds now).1.remaining) ∧
    (∀ (rstore : RedisStore) (key : String) (u : Int),
      ∃ d, (redisAttempt redisOk rstore key limit windowSeconds u).1 = some d ∧
        (∃ e, assocGet ((redisAttempt redisOk rstore key limit windowSeconds u).2) key =
            some e ∧ d.remaining = max 0 (limit - e.count)) ∧
        0 ≤ d.remaining) := by
  refine ⟨?_, ?_, ?_⟩
  · intro hL
    have hmax : max (0 : Int) (limit - 1) = limit - 1 := max_eq_right (by omega)
    constructor
    · rcases h : assocGet store (rateLimitKey identifier) with _ | ⟨c0, r0⟩
      · rw [checkRateLimitMemory_fresh store identifier limit windowSeconds now h]
        exact ⟨1, now + windowSeconds * 1000, assocGet_assocSet_self _ _ _, by rw [hmax]⟩
      · by_cases hexp : now > r0
        · rw [checkRateLimitMemory_expired store identifier limit windowSeconds now
            ⟨c0, r0⟩ h hexp]
          exact ⟨1, now + windowSeconds * 1000, assocGet_assocSet_self _ _ _,
            by rw [hmax]⟩
        · rw [checkRateLimitMemory_inWindow store identifier limit windowSeconds now
            ⟨c0, r0⟩ h (not_lt.mp hexp)]
          exact ⟨c0 + 1, r0, assocGet_assocSet_self _ _ _, rfl⟩
    · rcases h : assocGet store (rateLimitKey identifier) with _ | ⟨c0, r0⟩
      · rw [checkRateLimitMemory_fresh store identifier limit windowSeconds now h]
        show (0 : Int) ≤ limit - 1
        omega
      · by_cases hexp : now > r0
        · rw [checkRateLimitMemory_expired store identifier limit windowSeconds now
            ⟨c0, r0⟩ h hexp]
          show (0 : Int) ≤ limit - 1
          omega
        · rw [checkRateLimitMemory_inWindow store identifier limit windowSeconds now
            ⟨c0, r0⟩ h (not_lt.mp hexp)]
          exact le_max_left _ _
  · intro c r hget hin
    rw [checkRateLimitMemory_inWindow store identifier limit windowSeconds now
      ⟨c, r⟩ hget hin]
    exact ⟨rfl, assocGet_assocSet_self _ _ _, le_max_left _ _⟩
  · intro rstore key u
    have hrem := redisAttempt_ok_remaining rstore key limit windowSeconds u
    obtain ⟨e, hstore, hcount⟩ := redisAttempt_ok_storedCount rstore key
      limit windowSeconds u
    rcases hres : (redisAttempt redisOk rstore key limit windowSeconds u).1 with _ | d
    · rw [hres] at hrem
      simp at hrem
    · rw [hres] at hrem
      have hd : d.remaining = max 0 (limit - (redisIncr rstore key u).1) := by
        simpa using hrem
      refine ⟨d, rfl, ⟨e, hstore, ?_⟩, ?_⟩
      · rw [hd, hcount]
      · rw [hd]
        exact le_max_left _ _

theorem c2_witness :
    0 ≤ (checkRateLimitMemory [] "4.4.4.4" 7 60 0).1.remaining ∧
    (∃ d, (redisAttempt redisOk [] "ratelimit:4.4.4.4" 0 60 5).1 = some d ∧
      (∃ e, assocGet ((redisAttempt redisOk [] "ratelimit:4.4.4.4" 0 60 5).2)
          "ratelimit:4.4.4.4" = some e ∧ d.remaining = max 0 (0 - e.count)) ∧
      0 ≤ d.remaining) :=
  ⟨((c2_amended_remaining_clamped [] "4.4.4.4" 7 60 0).1 (by decide)).2,
   (c2_amended_remaining_clamped [] "4.4.4.4" 0 60 5).2.2 [] "ratelimit:4.4.4.4" 5⟩

/-- C3 fails as stated: the very first call on a fresh key with limit 0 on
the local backend returns `success = true` (the new-window branch returns
success unconditionally), not `success = false`. -/
theorem c3_counterexample :
    (checkRateLimitMemory [] "203.0.113.7" 0 60 5000).1.success = true := by
  decide

/-- C3 (amended): with limit 0, evaluate returns `success = false` on the
distributed backend (the observed count is at least 1 > 0) and on the
local backend whenever an unexpired record exists; but the first call on
a fresh key, and the first call after expiry, on the local backend
return `success = true`. -/
theorem c3_amended_zero_limit_denies_except_local_new_window
    (identifier : String) (windowSeconds now : Int) :
    (∀ (store : MemoryStore) (c r : Int), 0 ≤ c →
        assocGet store (rateLimitKey identifier) = some ⟨c, r⟩ → now ≤ r →
        (checkRateLimitMemory store identifier 0 windowSeconds now).1.success = false) ∧
    (∀ store : MemoryStore,
        assocGet store (rateLimitKey identifier) = none →
        (checkRateLimitMemory store identifier 0 windowSeconds now).1.success = true) ∧
    (∀ (store : MemoryStore) (c r : Int),
        assocGet store (rateLimitKey identifier) = some ⟨c, r⟩ → now > r →
        (checkRateLimitMemory store identifier 0 windowSeconds now).1.success = true) ∧
    (∀ (rstore : RedisStore) (key : String) (u c ex : Int),
        assocGet rstore key = some ⟨c, some ex⟩ → 1 ≤ c → u < ex →
        (redisAttempt redisOk rstore key 0 windowSeconds u).1 =
          some { success := false, limit := 0, remaining := 0, reset := ex * 1000 }) ∧
    (∀ (rstore : RedisStore) (key : String) (u : Int),
        assocGet rstore key = none → 1 ≤ windowSeconds →
        (redisAttempt redisOk rstore key 0 windowSeconds u).1 =
          some { success := false, limit := 0, remaining := 0,
                 reset := (u + windowSeconds) * 1000 }) := by
  refine ⟨?_, ?_, ?_, ?_, ?_⟩
  · intro store c r hc hget hin
    rw [checkRateLimitMemory_inWindow store identifier 0 windowSeconds now ⟨c, r⟩ hget hin]
    show decide (c + 1 ≤ (0 : Int)) = false
    exact decide_eq_false (by omega)
  · intro store hget
    rw [checkRateLimitMemory_fresh store identifier 0 windowSeconds now hget]
  · intro store c r hget hexp
    rw [checkRateLimitMemory_expired store identifier 0 windowSeconds now ⟨c, r⟩ hget hexp]
  · intro rstore key u c ex hget hc hu
    rw [redisAttempt_inWindow rstore key 0 windowSeconds u c ex hget hc hu]
    have h1 : decide (c + 1 ≤ (0 : Int)) = false := decide_eq_false (by omega)
    have h2 : max (0 : Int) (0 - (c + 1)) = 0 := max_eq_left (by omega)
    rw [h1, h2]
  · intro rstore key u hget hW
    rw [redisAttempt_fresh rstore key 0 windowSeconds u hget hW]
    norm_num

theorem c3_witness :
    (checkRateLimitMemory [("ratelimit:z", ⟨1, 10000⟩)] "z" 0 60 500).1.success = false :=
  (c3_amended_zero_limit_denies_except_local_new_window "z" 60 500).1
    [("ratelimit:z", ⟨1, 10000⟩)] 1 10000 (by decide) (by decide) (by decide)

/-- C4: within a single window (no expiry between calls), `reset` is the
same value on every repeated call on the same key: one in-window local
call returns the stored `resetAt` and leaves it unchanged; a fresh-key
local run within the window returns the constant reset
`t0 + windowSeconds * 1000` on every call; a fresh-key distributed run
within the window returns the constant reset
`(u0 + windowSeconds) * 1000` on every call. -/
theorem c4_reset_stable_within_window
    (identifier : String) (limit windowSeconds : Int)
    (store : MemoryStore) (c r now : Int)
    (hget : assocGet store (rateLimitKey identifier) = some ⟨c, r⟩)
    (hin : now ≤ r)
    (mstore : MemoryStore) (t0 : Int) (ts : List Int)
    (hfresh : assocGet mstore (rateLimitKey identifier) = none)
    (hts : ∀ t ∈ ts, t ≤ t0 + windowSeconds * 1000)
    (rstore : RedisStore) (u0 : Int) (us : List Int) (hW : 1 ≤ windowSeconds)
    (hrfresh : assocGet rstore (rateLimitKey identifier) = none)
    (hus : ∀ u ∈ us, u < u0 + windowSeconds) :
    ((checkRateLimitMemory store identifier limit windowSeconds now).1.reset = r ∧
      assocGet ((checkRateLimitMemory store identifier limit windowSeconds now).2)
        (rateLimitKey identifier) = some ⟨c + 1, r⟩) ∧
    ((runMemCalls identifier limit windowSeconds (t0 :: ts) mstore).1).map
        RateLimitResult.reset =
      List.replicate (ts.length + 1) (t0 + windowSeconds * 1000) ∧
    ((runRedisCalls identifier limit windowSeconds (u0 :: us) rstore).1).map
        (Option.map RateLimitResult.reset) =
      List.replicate (us.length + 1) (some ((u0 + windowSeconds) * 1000)) := by
  refine ⟨⟨?_, ?_⟩, ?_, ?_⟩
  · rw [checkRateLimitMemory_inWindow store identifier limit windowSeconds now
      ⟨c, r⟩ hget hin]
  · rw [checkRateLimitMemory_inWindow store identifier limit windowSeconds now
      ⟨c, r⟩ hget hin]
    exact assocGet_assocSet_self _ _ _
  · have hstep := checkRateLimitMemory_fresh mstore identifier limit windowSeconds t0 hfresh
    have hget1 : assocGet (assocSet mstore (rateLimitKey identifier)
        ⟨1, t0 + windowSeconds * 1000⟩) (rateLimitKey identifier) =
        some ⟨1, t0 + windowSeconds * 1000⟩ := assocGet_assocSet_self _ _ _
    obtain ⟨h1, _⟩ := runMemCalls_inWindow identifier limit windowSeconds ts
      (assocSet mstore (rateLimitKey identifier) ⟨1, t0 + windowSeconds * 1000⟩)
      1 (t0 + windowSeconds * 1000) hget1 hts
    simp only [runMemCalls, hstep, List.map_cons, h1, List.map_map, List.replicate_succ]
    refine List.cons_eq_cons.mpr ⟨rfl, ?_⟩
    simp [Function.comp_def, List.map_const']
  · have hstep := redisAttempt_fresh rstore (rateLimitKey identifier)
      limit windowSeconds u0 hrfresh hW
    have hget1 : assocGet (assocSet (assocSet rstore (rateLimitKey identifier) ⟨1, none⟩)
        (rateLimitKey identifier) ⟨1, some (u0 + windowSeconds)⟩) (rateLimitKey identifier) =
        some ⟨1, some (u0 + windowSeconds)⟩ := assocGet_assocSet_self _ _ _
    obtain ⟨h1, _⟩ := runRedisCalls_inWindow identifier limit windowSeconds us
      (assocSet (assocSet rstore (rateLimitKey identifier) ⟨1, none⟩)
        (rateLimitKey identifier) ⟨1, some (u0 + windowSeconds)⟩)
      1 (u0 + windowSeconds) hget1 le_rfl hus
    simp only [runRedisCalls, hstep, List.map_cons, h1, List.map_map, List.replicate_succ]
    refine List.cons_eq_cons.mpr ⟨rfl, ?_⟩
    simp [Function.comp_def, List.map_const']

theorem c4_witness :
    ((checkRateLimitMemory [("ratelimit:q", ⟨2, 90000⟩)] "q" 5 60 1000).1.reset = 90000 ∧
      assocGet ((checkRateLimitMemory [("ratelimit:q", ⟨2, 90000⟩)] "q" 5 60 1000).2)
        (rateLimitKey "q") = some ⟨2 + 1, 90000⟩) ∧
    ((runMemCalls "q" 5 60 [0, 100, 200] []).1).map RateLimitResult.reset =
      List.replicate ([100, 200].length + 1) ((0 : Int) + 60 * 1000) ∧
    ((runRedisCalls "q" 5 60 [0, 10, 20] []).1).map (Option.map RateLimitResult.reset) =
      List.replicate ([10, 20].length + 1) (some (((0 : Int) + 60) * 1000)) :=
  c4_reset_stable_within_window "q" 5 60 [("ratelimit:q", ⟨2, 90000⟩)] 2 90000 1000
    (by decide) (by decide) [] 0 [100, 200] (by decide) (by decide)
    [] 0 [10, 20] (by decide) (by decide) (by decide)

/-- C5: when the stored `resetAt` lies in the past at call time, the next
local-backend call starts a new window: the stored count resets to 1,
the decision is `success = true` with `remaining = limit - 1`, and
`reset` advances to `now + windowSeconds * 1000`. -/
theorem c5_expired_record_starts_new_window
    (store : MemoryStore) (identifier : String) (limit windowSeconds now c r : Int)
    (hget : assocGet store (rateLimitKey identifier) = some ⟨c, r⟩)
    (hexp : now > r) :
    (checkRateLimitMemory store identifier limit windowSeconds now).1 =
      { success := true, limit := limit, remaining := limit - 1,
        reset := now + windowSeconds * 1000 } ∧
    assocGet ((checkRateLimitMemory store identifier limit windowSeconds now).2)
        (rateLimitKey identifier) = some ⟨1, now + windowSeconds * 1000⟩ := by
  have h := checkRateLimitMemory_expired store identifier limit windowSeconds now
    ⟨c, r⟩ hget hexp
  rw [h]
  exact ⟨rfl, assocGet_assocSet_self _ _ _⟩

theorem c5_witness :
    (checkRateLimitMemory [("ratelimit:old", ⟨7, 100⟩)] "old" 3 60 200).1 =
      { success := true, limit := 3, remaining := 3 - 1, reset := 200 + 60 * 1000 } ∧
    assocGet ((checkRateLimitMemory [("ratelimit:old", ⟨7, 100⟩)] "old" 3 60 200).2)
        (rateLimitKey "old") = some ⟨1, 200 + 60 * 1000⟩ :=
  c5_expired_record_starts_new_window [("ratelimit:old", ⟨7, 100⟩)] "old" 3 60 200 7 100
    (by decide) (by decide)

/-- C6: if the IP constituent of a combined evaluation fails, the combined
decision is exactly the IP constituent's decision, field for field, with
no constraint on the email constituent (so also when both fail); if the
IP constituent succeeds and the email constituent fails, the combined
decision is exactly the email constituent's decision. -/
theorem c6_first_failing_constituent_returned
    (store : MemoryStore) (ip email : String)
    (ipLimit emailLimit windowSeconds now : Int) :
    ((checkRateLimitMemory store ("ip:" ++ ip) ipLimit windowSeconds now).1.success =
        false →
      (rateLimitCombined store ip email ipLimit emailLimit windowSeconds now).1 =
        (checkRateLimitMemory store ("ip:" ++ ip) ipLimit windowSeconds now).1) ∧
    ((checkRateLimitMemory store ("ip:" ++ ip) ipLimit windowSeconds now).1.success =
        true →
      (checkRateLimitMemory
          (checkRateLimitMemory store ("ip:" ++ ip) ipLimit windowSeconds now).2
          ("email:" ++ email) emailLimit windowSeconds now).1.success = false →
      (rateLimitCombined store ip email ipLimit emailLimit windowSeconds now).1 =
        (checkRateLimitMemory
          (checkRateLimitMemory store ("ip:" ++ ip) ipLimit windowSeconds now).2
          ("email:" ++ email) emailLimit windowSeconds now).1) := by
  constructor
  · intro hip
    simp [rateLimitCombined, combineResults, hip]
  · intro hip hem
    simp [rateLimitCombined, combineResults, hip, hem]

theorem c6_witness :
    (rateLimitCombined [("ratelimit:ip:9.9.9.9", ⟨3, 100000⟩)] "9.9.9.9" "a@b.c"
        3 5 60 500).1 =
      (checkRateLimitMemory [("ratelimit:ip:9.9.9.9", ⟨3, 100000⟩)]
        ("ip:" ++ "9.9.9.9") 3 60 500).1 :=
  (c6_first_failing_constituent_returned [("ratelimit:ip:9.9.9.9", ⟨3, 100000⟩)]
    "9.9.9.9" "a@b.c" 3 5 60 500).1 (by decide)

/-- C7: when both constituents of a combined evaluation succeed, the
combined decision has `success = true`, the minimum of the constituent
limits, the minimum of the constituent remainders, and the maximum of
the constituent reset times. -/
theorem c7_all_success_most_restrictive
    (store : MemoryStore) (ip email : String)
    (ipLimit emailLimit windowSeconds now : Int)
    (hip : (checkRateLimitMemory store ("ip:" ++ ip) ipLimit windowSeconds now).1.success =
      true)
    (hem : (checkRateLimitMemory
        (checkRateLimitMemory store ("ip:" ++ ip) ipLimit windowSeconds now).2
        ("email:" ++ email) emailLimit windowSeconds now).1.success = true) :
    (rateLimitCombined store ip email ipLimit emailLimit windowSeconds now).1 =
      { success := true,
        limit := min
          (checkRateLimitMemory store ("ip:" ++ ip) ipLimit windowSeconds now).1.limit
          (checkRateLimitMemory
            (checkRateLimitMemory store ("ip:" ++ ip) ipLimit windowSeconds now).2
            ("email:" ++ email) emailLimit windowSeconds now).1.limit,
        remaining := min
          (checkRateLimitMemory store ("ip:" ++ ip) ipLimit windowSeconds now).1.remaining
          (checkRateLimitMemory
            (checkRateLimitMemory store ("ip:" ++ ip) ipLimit windowSeconds now).2
            ("email:" ++ email) emailLimit windowSeconds now).1.remaining,
        reset := max
          (checkRateLimitMemory store ("ip:" ++ ip) ipLimit windowSeconds now).1.reset
          (checkRateLimitMemory
            (checkRateLimitMemory store ("ip:" ++ ip) ipLimit windowSeconds now).2
            ("email:" ++ email) emailLimit windowSeconds now).1.reset } := by
  simp [rateLimitCombined, combineResults, hip, hem]

theorem c7_witness :
    (rateLimitCombined [] "7.7.7.7" "c@d.e" 4 6 60 0).1 =
      { success := true,
        limit := min (checkRateLimitMemory [] ("ip:" ++ "7.7.7.7") 4 60 0).1.limit
          (checkRateLimitMemory (checkRateLimitMemory [] ("ip:" ++ "7.7.7.7") 4 60 0).2
            ("email:" ++ "c@d.e") 6 60 0).1.limit,
        remaining := min (checkRateLimitMemory [] ("ip:" ++ "7.7.7.7") 4 60 0).1.remaining
          (checkRateLimitMemory (checkRateLimitMemory [] ("ip:" ++ "7.7.7.7") 4 60 0).2
            ("email:" ++ "c@d.e") 6 60 0).1.remaining,
        reset := max (checkRateLimitMemory [] ("ip:" ++ "7.7.7.7") 4 60 0).1.reset
          (checkRateLimitMemory (checkRateLimitMemory [] ("ip:" ++ "7.7.7.7") 4 60 0).2
            ("email:" ++ "c@d.e") 6 60 0).1.reset } :=
  c7_all_success_most_restrictive [] "7.7.7.7" "c@d.e" 4 6 60 0 (by decide) (by decide)

/-- Helper for C8: whenever a network step of the distributed attempt
raises, the attempt produces no decision. -/
theorem redisAttempt_err (f : RedisCall) (store : RedisStore) (key : String)
    (limit windowSeconds nowSec : Int)
    (herr : f.incrFails = true ∨
      ((redisIncr store key nowSec).1 = 1 ∧ f.expireFails = true) ∨
      f.ttlFails = true) :
    (redisAttempt f store key limit windowSeconds nowSec).1 = none := by
  by_cases h1 : f.incrFails = true
  · simp [redisAttempt, h1]
  · by_cases h2 : (redisIncr store key nowSec).1 = 1 ∧ f.expireFails = true
    · simp [redisAttempt, h1, h2]
    · have h3 : f.ttlFails = true := by
        rcases herr with h | h | h
        · exact absurd h h1
        · exact absurd h h2
        · exact h
      simp [redisAttempt, h1, h2, h3]

/-- C8: if the distributed backend raises at any step of the
increment/expire/ttl sequence, the error is caught and the evaluation is
completed against the local backend for that call — the caller receives
the local backend's decision, and the local store is updated exactly as
by a local evaluation. -/
theorem c8_store_error_falls_back_to_local
    (f : RedisCall) (rstore : RedisStore) (mstore : MemoryStore)
    (identifier : String) (limit windowSeconds nowSec : Int)
    (herr : f.incrFails = true ∨
      ((redisIncr rstore (rateLimitKey identifier) nowSec).1 = 1 ∧ f.expireFails = true) ∨
      f.ttlFails = true) :
    (checkRateLimit true f rstore mstore identifier limit windowSeconds nowSec).1 =
      (checkRateLimitMemory mstore identifier limit windowSeconds (nowSec * 1000)).1 ∧
    (checkRateLimit true f rstore mstore identifier limit windowSeconds nowSec).2.2 =
      (checkRateLimitMemory mstore identifier limit windowSeconds (nowSec * 1000)).2 := by
  have hnone := redisAttempt_err f rstore (rateLimitKey identifier)
    limit windowSeconds nowSec herr
  rcases hpr : redisAttempt f rstore (rateLimitKey identifier) limit windowSeconds nowSec
    with ⟨o, r1⟩
  have ho : o = none := by rw [hpr] at hnone; exact hnone
  subst ho
  constructor
  · simp [checkRateLimit, hpr]
  · simp [checkRateLimit, hpr]

theorem c8_witness :
    (checkRateLimit true ⟨true, false, false⟩ [] [] "w" 5 60 0).1 =
      (checkRateLimitMemory [] "w" 5 60 (0 * 1000)).1 :=
  (c8_store_error_falls_back_to_local ⟨true, false, false⟩ [] [] "w" 5 60 0
    (Or.inl rfl)).1

/-- Helper for C9: an unexpired binding found by lookup is still found,
unchanged, after a sweep. -/
theorem assocGet_cleanup_of_unexpired (now : Int) (k : String) (rec : MemRecord) :
    ∀ store : MemoryStore, assocGet store k = some rec → now ≤ rec.resetAt →
      assocGet (cleanupMemoryStore store now) k = some rec := by
  intro store
  induction store with
  | nil => intro h _; simp [assocGet] at h
  | cons hd tl ih =>
      intro hget hfut
      obtain ⟨k0, v0⟩ := hd
      by_cases hk : k0 = k
      · subst hk
        have hv : v0 = rec := by simpa [assocGet] using hget
        subst hv
        simp [cleanupMemoryStore, List.filter_cons, hfut, assocGet]
      · have hget' : assocGet tl k = some rec := by simpa [assocGet, hk] using hget
        by_cases hp : now > v0.resetAt
        · simpa [cleanupMemoryStore, List.filter_cons, not_le.mpr hp]
            using ih hget' hfut
        · simpa [cleanupMemoryStore, List.filter_cons, not_lt.mp hp, assocGet, hk]
            using ih hget' hfut

/-- C9: a sweep at time `now` deletes exactly the entries whose `resetAt`
is in the past; every entry with a future (or current) `resetAt` is kept
unchanged, and an unexpired binding found by lookup before the sweep is
found unchanged after it. -/
theorem c9_sweep_removes_exactly_expired (store : MemoryStore) (now : Int) :
    (∀ (k : String) (rec : MemRecord),
        ((k, rec) ∈ cleanupMemoryStore store now ↔
          (k, rec) ∈ store ∧ ¬ now > rec.resetAt)) ∧
    (∀ (k : String) (rec : MemRecord),
        assocGet store k = some rec → now ≤ rec.resetAt →
        assocGet (cleanupMemoryStore store now) k = some rec) := by
  constructor
  · intro k rec
    simp [cleanupMemoryStore, List.mem_filter]
  · intro k rec hget hfut
    exact assocGet_cleanup_of_unexpired now k rec store hget hfut

theorem c9_witness :
    ("a", (⟨1, 100⟩ : MemRecord)) ∈
        cleanupMemoryStore [("a", ⟨1, 100⟩), ("b", ⟨2, 0⟩)] 50 ∧
    assocGet (cleanupMemoryStore [("a", ⟨1, 100⟩), ("b", ⟨2, 0⟩)] 50) "a" =
      some ⟨1, 100⟩ :=
  ⟨((c9_sweep_removes_exactly_expired [("a", ⟨1, 100⟩), ("b", ⟨2, 0⟩)] 50).1
      "a" ⟨1, 100⟩).mpr ⟨by decide, by decide⟩,
   (c9_sweep_removes_exactly_expired [("a", ⟨1, 100⟩), ("b", ⟨2, 0⟩)] 50).2
      "a" ⟨1, 100⟩ (by decide) (by decide)⟩

/-- C10: a combined evaluation increments both dimension counters: with
both records in window, the IP count and the email count each advance by
one, even when the IP limit is already exceeded and the combined call is
denied. -/
theorem c10_combined_increments_both_dimensions
    (store : MemoryStore) (ip email : String)
    (ipLimit emailLimit windowSeconds now c1 r1 c2 r2 : Int)
    (hip : assocGet store (rateLimitKey ("ip:" ++ ip)) = some ⟨c1, r1⟩)
    (hin1 : now ≤ r1)
    (hem : assocGet store (rateLimitKey ("email:" ++ email)) = some ⟨c2, r2⟩)
    (hin2 : now ≤ r2) :
    assocGet ((rateLimitCombined store ip email ipLimit emailLimit windowSeconds now).2)
        (rateLimitKey ("ip:" ++ ip)) = some ⟨c1 + 1, r1⟩ ∧
    assocGet ((rateLimitCombined store ip email ipLimit emailLimit windowSeconds now).2)
        (rateLimitKey ("email:" ++ email)) = some ⟨c2 + 1, r2⟩ ∧
    (ipLimit < c1 + 1 →
      (rateLimitCombined store ip email ipLimit emailLimit windowSeconds now).1.success =
        false) := by
  have hne := ipKey_ne_emailKey ip email
  have hstep1 := checkRateLimitMemory_inWindow store ("ip:" ++ ip)
    ipLimit windowSeconds now ⟨c1, r1⟩ hip hin1
  have hem1 : assocGet (assocSet store (rateLimitKey ("ip:" ++ ip)) ⟨c1 + 1, r1⟩)
      (rateLimitKey ("email:" ++ email)) = some ⟨c2, r2⟩ := by
    rw [assocGet_assocSet_ne _ _ _ _ hne]
    exact hem
  have hstep2 := checkRateLimitMemory_inWindow
    (assocSet store (rateLimitKey ("ip:" ++ ip)) ⟨c1 + 1, r1⟩) ("email:" ++ email)
    emailLimit windowSeconds now ⟨c2, r2⟩ hem1 hin2
  refine ⟨?_, ?_, ?_⟩
  · simp only [rateLimitCombined, hstep1, hstep2]
    rw [assocGet_assocSet_ne _ _ _ _ (Ne.symm hne)]
    exact assocGet_assocSet_self _ _ _
  · simp only [rateLimitCombined, hstep1, hstep2]
    exact assocGet_assocSet_self _ _ _
  · intro hover
    have hfail : decide (c1 + 1 ≤ ipLimit) = false := decide_eq_false (by omega)
    simp only [rateLimitCombined, hstep1, hstep2, combineResults]
    simp [hfail]

theorem c10_witness :
    assocGet ((rateLimitCombined
        [("ratelimit:ip:8.8.8.8", ⟨2, 50000⟩), ("ratelimit:email:u@v.w", ⟨1, 50000⟩)]
        "8.8.8.8" "u@v.w" 2 5 60 1000).2)
      (rateLimitKey ("email:" ++ "u@v.w")) = some ⟨1 + 1, 50000⟩ ∧
    (rateLimitCombined
        [("ratelimit:ip:8.8.8.8", ⟨2, 50000⟩), ("ratelimit:email:u@v.w", ⟨1, 50000⟩)]
        "8.8.8.8" "u@v.w" 2 5 60 1000).1.success = false :=
  ⟨(c10_combined_increments_both_dimensions
      [("ratelimit:ip:8.8.8.8", ⟨2, 50000⟩), ("ratelimit:email:u@v.w", ⟨1, 50000⟩)]
      "8.8.8.8" "u@v.w" 2 5 60 1000 2 50000 1 50000
      (by decide) (by decide) (by decide) (by decide)).2.1,
   (c10_combined_increments_both_dimensions
      [("ratelimit:ip:8.8.8.8", ⟨2, 50000⟩), ("ratelimit:email:u@v.w", ⟨1, 50000⟩)]
      "8.8.8.8" "u@v.w" 2 5 60 1000 2 50000 1 50000
      (by decide) (by decide) (by decide) (by decide)).2.2 (by decide)⟩
